import Mathlib

/-!
# Verification of the `appleargs` crate (capture and query of the Apple
supplemental argument vector)

Shallow embedding of `src/env.rs`, `src/sys.rs` and `src/lib.rs`.

Byte strings are modelled as `List Nat` (each element a byte value);
the two bytes the code inspects are `61` (`'='`) and `0` (`'\0'`).
A Rust `&str` is represented by its underlying UTF-8 bytes, and a panic
(`expect` on `from_utf8`) is modelled as `none`.
-/

namespace AppleArgs

/-- The byte value of the `'='` character. -/
def eqByte : Nat := 61

/-- `s.iter().position(|&b| b == b'=')` from `split_kv` in `src/env.rs`:
index of the first `'='` byte, if any. -/
def position_eq : List Nat → Option Nat
  | [] => none
  | b :: rest => if b == eqByte then some 0 else (position_eq rest).map (· + 1)

/-- `split_kv` from `src/env.rs`: split an entry at its first `'='` into
(key, value); `none` when the entry has no `'='`. -/
def split_kv (s : List Nat) : Option (List Nat × List Nat) :=
  match position_eq s with
  | none => none
  | some i => some (s.take i, s.drop (i + 1))

/-- The scan loop of `apple_getenv` in `src/env.rs`: first entry whose
byte at offset `k.length` is `'='` and which starts with `k` wins. -/
def apple_getenv_scan (k : List Nat) : List (List Nat) → Option (List Nat)
  | [] => none
  | a :: env =>
    if a.get? k.length == some eqByte && k.isPrefixOf a then
      some (a.drop (k.length + 1))
    else apple_getenv_scan k env

/-- `apple_getenv` from `src/env.rs`: keys containing a null byte never
match; otherwise scan entries in order. -/
def apple_getenv (k : List Nat) (env : List (List Nat)) : Option (List Nat) :=
  if k.contains 0 then none else apple_getenv_scan k env

/-- `split_args_iter` from `src/env.rs`: the key/value pair view of the
entries (`filter_map(split_kv)`). -/
def split_args_iter (env : List (List Nat)) : List (List Nat × List Nat) :=
  env.filterMap split_kv

/-- One continuation byte of a UTF-8 sequence: `0x80 ≤ b ≤ 0xBF`. -/
def utf8Cont (b : Nat) : Bool := 0x80 ≤ b && b ≤ 0xBF

/-- `core::str::utf8_char_width`: the length of the UTF-8 sequence a
leading byte announces, `0` for bytes that can never start one. -/
def utf8CharWidth (b : Nat) : Nat :=
  if b ≤ 0x7F then 1
  else if 0xC2 ≤ b && b ≤ 0xDF then 2
  else if 0xE0 ≤ b && b ≤ 0xEF then 3
  else if 0xF0 ≤ b && b ≤ 0xF4 then 4
  else 0

/-- The admissible range of the byte following a leading byte, from the
`(first, next)` table of `core::str::run_utf8_validation` (it rules out
overlong encodings, surrogates and values above `U+10FFFF`). -/
def utf8SecondOk (b b1 : Nat) : Bool :=
  if b == 0xE0 then 0xA0 ≤ b1 && b1 ≤ 0xBF
  else if b == 0xED then 0x80 ≤ b1 && b1 ≤ 0x9F
  else if b == 0xF0 then 0x90 ≤ b1 && b1 ≤ 0xBF
  else if b == 0xF4 then 0x80 ≤ b1 && b1 ≤ 0x8F
  else utf8Cont b1

/-- Fuelled form of `core::str::run_utf8_validation`: consume one
encoded scalar per step (width from the leading byte, second byte from
the pair table, remaining bytes plain continuations).  The fuel only
bounds the recursion; `utf8Valid` supplies enough for the whole
input. -/
def utf8ValidFuel : Nat → List Nat → Bool
  | _, [] => true
  | 0, _ :: _ => false
  | fuel + 1, b :: rest =>
    if b ≤ 0x7F then utf8ValidFuel fuel rest
    else
      (utf8CharWidth b != 0) &&
      (!(rest.length + 1 < utf8CharWidth b)) &&
      utf8SecondOk b (rest.getD 0 0) &&
      ((utf8CharWidth b ≤ 2) || utf8Cont (rest.getD 1 0)) &&
      ((utf8CharWidth b ≤ 3) || utf8Cont (rest.getD 2 0)) &&
      utf8ValidFuel fuel (rest.drop (utf8CharWidth b - 1))

/-- Validity of a byte list as UTF-8, exactly as `core::str::from_utf8`
checks it. -/
def utf8Valid (s : List Nat) : Bool := utf8ValidFuel s.length s

/-- `str_from_slice` from `src/lib.rs`: decode bytes as UTF-8, panicking
(modelled as `none`) when invalid.  A Rust `&str` is represented by its
bytes, so a successful decode returns the bytes themselves. -/
def str_from_slice (s : List Nat) : Option (List Nat) :=
  if utf8Valid s then some s else none

/-- `VarError` from `src/env.rs`. -/
inductive VarError where
  | NotPresent : VarError
  | NotUnicode : List Nat → VarError
  deriving DecidableEq, Repr

/-- `apple_var` from `src/env.rs` (`apple_var_impl`, parameterised by the
entry list just as `apple_getenv` is). -/
def apple_var (s : List Nat) (env : List (List Nat)) :
    Except VarError (List Nat) :=
  match apple_getenv s env with
  | some v => if utf8Valid v then .ok v else .error (.NotUnicode v)
  | none => .error .NotPresent

/-- `apple_var_os` from `src/env.rs`: the `OsStr` wrapper is the identity
on bytes. -/
def apple_var_os (s : List Nat) (env : List (List Nat)) :
    Option (List Nat) :=
  apple_getenv s env

/-- Raw iteration `apple_args_os` collected to a list: yields every
captured entry, as bytes, in order. -/
def apple_args_os (env : List (List Nat)) : List (List Nat) := env

/-- UTF-8 iteration `apple_args` collected to a list: each entry passed
through `str_from_slice` (`none` marks the panic on invalid UTF-8). -/
def apple_args (env : List (List Nat)) : List (Option (List Nat)) :=
  env.map str_from_slice

/-- Raw pair iteration `apple_vars_os` collected to a list. -/
def apple_vars_os (env : List (List Nat)) : List (List Nat × List Nat) :=
  split_args_iter env

/-- UTF-8 pair iteration `apple_vars` collected to a list: both
components of each pair are decoded (`none` marks the panic). -/
def apple_vars (env : List (List Nat)) :
    List (Option (List Nat) × Option (List Nat)) :=
  (split_args_iter env).map fun kv => (str_from_slice kv.1, str_from_slice kv.2)

/- ### Capture and snapshot (`src/sys.rs`) -/

/-- The process-wide published state: `none` models a null `ARGS_DATA`
pointer (capture never ran); `some entries` models a published
pointer/length pair. -/
structure CaptureState where
  data : Option (List (List Nat))
  deriving DecidableEq, Repr

/-- The initial state: `ARGS_DATA` null, `ARGS_LEN` zero. -/
def initialState : CaptureState := ⟨none⟩

/-- `args_slice` from `src/sys.rs`: the published entries, or the empty
slice when the pointer is null. -/
def args_slice (st : CaptureState) : List (List Nat) :=
  st.data.getD []

/-- `init_function` from `src/sys.rs`.  The supplemental vector is
`none` for a null `applep` pointer and otherwise the list of C strings
up to the null terminator; `strlen` truncation at the first null byte is
`takeWhile (· ≠ 0)`, and empty entries are dropped.  The resulting
vector is always published, even when empty. -/
def init_function (applep : Option (List (List Nat))) : CaptureState :=
  match applep with
  | none => ⟨some []⟩
  | some arr =>
    ⟨some ((arr.map fun s => s.takeWhile (fun b => b ≠ 0)).filter
      fun s => !s.isEmpty)⟩

/- ### Slice iterators (`core::slice::Iter`, as used by `AppleArgs` and
`AppleArgsOs` in `src/lib.rs`) -/

/-- A slice iterator: the elements not yet yielded. -/
structure SliceIter (α : Type) where
  elems : List α
  deriving DecidableEq, Repr

/-- `Iterator::next`: yield the front element. -/
def SliceIter.next : SliceIter α → Option α × SliceIter α
  | ⟨[]⟩ => (none, ⟨[]⟩)
  | ⟨a :: rest⟩ => (some a, ⟨rest⟩)

/-- `DoubleEndedIterator::next_back`: yield the back element. -/
def SliceIter.next_back (it : SliceIter α) : Option α × SliceIter α :=
  match it.elems.getLast? with
  | none => (none, ⟨[]⟩)
  | some a => (some a, ⟨it.elems.dropLast⟩)

/-- `ExactSizeIterator::len` / `size_hint`: the exact remaining count. -/
def SliceIter.len (it : SliceIter α) : Nat := it.elems.length

/-- All the items forward traversal still yields, by repeated `next`. -/
def SliceIter.collectFwd : SliceIter α → List α
  | ⟨[]⟩ => []
  | ⟨a :: rest⟩ => a :: SliceIter.collectFwd ⟨rest⟩

/-- All the items reverse traversal still yields, by repeated
`next_back`. -/
def SliceIter.collectBwd (it : SliceIter α) : List α :=
  match h : it.elems.getLast? with
  | none => []
  | some a => a :: SliceIter.collectBwd ⟨it.elems.dropLast⟩
termination_by it.elems.length
decreasing_by
  cases it with
  | mk l =>
    cases l with
    | nil => simp at h
    | cons b t => simp [List.length_dropLast]

/-- Run `next` `n` times, keeping only the final iterator state. -/
def SliceIter.stepFwd (it : SliceIter α) : Nat → SliceIter α
  | 0 => it
  | n + 1 => (it.next.2).stepFwd n

/-- Run `next_back` `n` times, keeping only the final iterator state. -/
def SliceIter.stepBwd (it : SliceIter α) : Nat → SliceIter α
  | 0 => it
  | n + 1 => (it.next_back.2).stepBwd n

/-- The raw iterator over the snapshot (`apple_args_os()` in
`src/lib.rs`). -/
def apple_args_os_iter (st : CaptureState) : SliceIter (List Nat) :=
  ⟨args_slice st⟩

/-- The UTF-8 iterator over the snapshot (`apple_args()` in
`src/lib.rs`): the slice iterator with each yielded entry passed through
`str_from_slice`. -/
def apple_args_iter (st : CaptureState) : SliceIter (Option (List Nat)) :=
  ⟨(args_slice st).map str_from_slice⟩

/-- Every query operation returns an empty result on the state `st`:
snapshot access, raw/UTF-8 iteration (as lists and as iterators), pair
iteration, and the three point lookups. -/
def empty_queries (st : CaptureState) : Prop :=
  args_slice st = [] ∧
  apple_args_os (args_slice st) = [] ∧
  apple_args (args_slice st) = [] ∧
  apple_vars_os (args_slice st) = [] ∧
  apple_vars (args_slice st) = [] ∧
  apple_args_os_iter st = ⟨[]⟩ ∧
  apple_args_iter st = ⟨[]⟩ ∧
  ∀ k, apple_getenv k (args_slice st) = none ∧
    apple_var k (args_slice st) = .error .NotPresent ∧
    apple_var_os k (args_slice st) = none

end AppleArgs

namespace AppleArgs

/- ### Sanity checks for the embedding (the unit tests of `src/env.rs`) -/

-- "foob=1" etc. as byte lists: f=102 o=111 b=98 '='=61 digits 49..52
example :
    apple_getenv [102, 111, 111]
      [[102, 111, 111, 98, 61, 49], [102, 111, 61, 50],
       [98, 102, 111, 111, 61, 51], [102, 111, 111, 61, 52]]
      = some [52] := by decide

example :
    apple_getenv [102, 111, 111, 0]
      [[102, 111, 111, 98, 61, 49], [102, 111, 61, 50]] = none := by decide

example : apple_getenv [61] [[61, 97, 98, 99], [61, 61, 100, 101, 102]]
    = some [100, 101, 102] := by decide

example : split_kv [97, 61, 98, 61, 99] = some ([97], [98, 61, 99]) := by decide

/- ### Helper lemmas about `position_eq` and `split_kv` -/

theorem position_eq_none (s : List Nat) (h : eqByte ∉ s) : position_eq s = none := by
  induction s with
  | nil => rfl
  | cons b rest ih =>
    simp only [List.mem_cons, not_or] at h
    simp [position_eq, Ne.symm h.1, ih h.2]

theorem position_eq_append (k v : List Nat) (h : eqByte ∉ k) :
    position_eq (k ++ eqByte :: v) = some k.length := by
  induction k with
  | nil => simp [position_eq]
  | cons b rest ih =>
    simp only [List.mem_cons, not_or] at h
    simp [position_eq, Ne.symm h.1, ih h.2]

theorem position_eq_spec (s : List Nat) (i : Nat) (h : position_eq s = some i) :
    i < s.length ∧ s[i]? = some eqByte ∧ eqByte ∉ s.take i := by
  induction s generalizing i with
  | nil => simp [position_eq] at h
  | cons b rest ih =>
    by_cases hb : b = eqByte
    · simp [position_eq, hb] at h
      subst h
      simp [hb]
    · simp [position_eq, hb] at h
      obtain ⟨j, hj, rfl⟩ := h
      obtain ⟨h1, h2, h3⟩ := ih j hj
      refine ⟨by simpa using h1, by simpa using h2, ?_⟩
      simp [List.take_succ_cons, hb, h3, Ne.symm hb]

theorem split_kv_append (k v : List Nat) (h : eqByte ∉ k) :
    split_kv (k ++ eqByte :: v) = some (k, v) := by
  simp only [split_kv, position_eq_append k v h]
  have hdrop : (k ++ eqByte :: v).drop (k.length + 1) = v := by
    have heq : k ++ eqByte :: v = (k ++ [eqByte]) ++ v := by simp
    rw [heq, List.drop_left' (by simp)]
  rw [List.take_left, hdrop]

theorem split_kv_none (s : List Nat) (h : eqByte ∉ s) : split_kv s = none := by
  simp [split_kv, position_eq_none s h]

theorem split_kv_some (s k v : List Nat) (h : split_kv s = some (k, v)) :
    s = k ++ eqByte :: v ∧ eqByte ∉ k := by
  unfold split_kv at h
  cases hp : position_eq s with
  | none => simp [hp] at h
  | some i =>
    simp only [hp, Option.some.injEq, Prod.mk.injEq] at h
    obtain ⟨hk, hv⟩ := h
    obtain ⟨h1, h2, h3⟩ := position_eq_spec s i hp
    obtain ⟨hlt, hgi⟩ := List.getElem?_eq_some.mp h2
    constructor
    · conv_lhs => rw [← List.take_append_drop i s]
      rw [List.drop_eq_getElem_cons hlt, hgi, hk, hv]
    · rw [← hk]
      exact h3

/- ### C1 -/

theorem isPrefixOf_eq_take_beq (k a : List Nat) :
    k.isPrefixOf a = (a.take k.length == k) := by
  rw [Bool.eq_iff_iff]
  simp only [List.isPrefixOf_iff_prefix, List.prefix_iff_eq_take, beq_iff_eq]
  exact eq_comm

theorem apple_getenv_scan_eq_find (k : List Nat) (env : List (List Nat)) :
    apple_getenv_scan k env =
      (env.find? fun a => a.take k.length == k && a.get? k.length == some eqByte).map
        fun a => a.drop (k.length + 1) := by
  induction env with
  | nil => rfl
  | cons a env ih =>
    rw [apple_getenv_scan, List.find?_cons]
    rw [isPrefixOf_eq_take_beq, Bool.and_comm]
    cases hc : (a.take k.length == k && a.get? k.length == some eqByte) with
    | true => simp [hc]
    | false => simp [hc, ih]

/-- **C1**: raw point lookup scans the entries in original order and
returns the bytes after the `'='` of the first entry whose bytes before
an `'='` at offset `k.length` exactly equal the key `k`; the four
concrete lookups from the spec evaluate as stated; and a key containing
an embedded null byte never matches. -/
theorem C1_apple_getenv_lookup :
    (∀ (k : List Nat) (env : List (List Nat)), k.contains 0 = true →
      apple_getenv k env = none) ∧
    (∀ (k : List Nat) (env : List (List Nat)), k.contains 0 = false →
      apple_getenv k env =
        (env.find? fun a => a.take k.length == k && a.get? k.length == some eqByte).map
          fun a => a.drop (k.length + 1)) ∧
    apple_getenv [102, 111, 111]
      [[102, 111, 111, 98, 61, 49], [102, 111, 61, 50],
       [98, 102, 111, 111, 61, 51], [102, 111, 111, 61, 52]] = some [52] ∧
    apple_getenv [102, 111, 111]
      [[102, 111, 111, 98, 61, 49], [102, 111, 61, 50],
       [98, 102, 111, 111, 61, 51], [102, 111, 111, 61]] = some [] ∧
    apple_getenv [102, 111, 111]
      [[102, 111, 111, 98, 61, 49], [102, 111, 61, 50],
       [98, 102, 111, 111, 61, 51], [102, 111, 111, 61, 49, 61, 50]] =
      some [49, 61, 50] ∧
    apple_getenv [102, 111, 111] [[98, 102, 111, 111, 61, 49], [102, 111, 61, 50]] =
      none := by
  refine ⟨?_, ?_, by decide, by decide, by decide, by decide⟩
  · intro k env h
    have h0 : (0 : Nat) ∈ k := by simpa [List.contains] using h
    simp [apple_getenv, h0]
  · intro k env h
    simp only [apple_getenv, h, Bool.false_eq_true, if_false]
    exact apple_getenv_scan_eq_find k env

/-- Witness for C1 at concrete inputs: a key with an embedded null byte
is never found, and the lookup of `"f"` in `["f=1"]` agrees with the
first-match scan description. -/
theorem C1_apple_getenv_lookup_witness :
    apple_getenv [102, 0] [[102, 61, 49]] = none ∧
    apple_getenv [102] [[102, 61, 49]] =
      (([[102, 61, 49]] : List (List Nat)).find? fun a =>
        a.take [102].length == [102] && a.get? [102].length == some eqByte).map
        fun a => a.drop ([102].length + 1) :=
  ⟨C1_apple_getenv_lookup.1 [102, 0] [[102, 61, 49]] (by decide),
   C1_apple_getenv_lookup.2.1 [102] [[102, 61, 49]] (by decide)⟩

/- ### C2 -/

/-- **C2**: `split_kv` splits an entry at its first `'='` into key and
value: for `K` containing no `'='`, the entry `K ++ '=' :: V` yields
exactly `(K, V)` (so `=V` yields `("", V)`, `K=` yields `(K, "")`, and a
value may itself contain `'='`); an entry with no `'='` yields no pair
and is excluded from pair iteration while remaining visible via raw
iteration. -/
theorem C2_split_kv_law :
    (∀ k v : List Nat, eqByte ∉ k → split_kv (k ++ eqByte :: v) = some (k, v)) ∧
    (∀ s : List Nat, eqByte ∉ s → split_kv s = none) ∧
    (∀ (s : List Nat) (env : List (List Nat)), eqByte ∉ s →
      split_args_iter (s :: env) = split_args_iter env ∧
      apple_args_os (s :: env) = s :: apple_args_os env) := by
  refine ⟨split_kv_append, split_kv_none, fun s env h => ⟨?_, rfl⟩⟩
  simp [split_args_iter, split_kv_none s h]

/-- Witness for C2 at concrete inputs: the entry `"a=b"` splits into
`("a", "b")`, and the entry `"ab"` (no `'='`) is dropped from the pair
view of `["ab"]` while raw iteration keeps it. -/
theorem C2_split_kv_law_witness :
    split_kv ([97] ++ eqByte :: [98]) = some ([97], [98]) ∧
    split_kv [97, 98] = none ∧
    split_args_iter [[97, 98]] = split_args_iter [] := by
  refine ⟨C2_split_kv_law.1 [97] [98] (by decide),
    C2_split_kv_law.2.1 [97, 98] (by decide),
    (C2_split_kv_law.2.2 [97, 98] [] (by decide)).1⟩

/- ### C3 -/

/-- **C3**: the UTF-8 point lookup distinguishes exactly three
outcomes: no entry matched (`NotPresent`), an entry matched with a
valid-UTF-8 value (returned decoded), or an entry matched with an
invalid value (`NotUnicode` carrying the raw matched bytes); and the
`NotPresent` outcome occurs precisely when the raw lookup finds
nothing. -/
theorem C3_apple_var_outcomes (s : List Nat) (env : List (List Nat)) :
    ((apple_getenv s env = none ∧ apple_var s env = .error .NotPresent) ∨
     (∃ v, apple_getenv s env = some v ∧ utf8Valid v = true ∧
        apple_var s env = .ok v) ∨
     (∃ v, apple_getenv s env = some v ∧ utf8Valid v = false ∧
        apple_var s env = .error (.NotUnicode v))) ∧
    (apple_var s env = .error .NotPresent ↔ apple_getenv s env = none) := by
  cases h : apple_getenv s env with
  | none => exact ⟨Or.inl ⟨rfl, by simp [apple_var, h]⟩, by simp [apple_var, h]⟩
  | some v =>
    by_cases hv : utf8Valid v = true
    · exact ⟨Or.inr (Or.inl ⟨v, rfl, hv, by simp [apple_var, h, hv]⟩),
        by simp [apple_var, h, hv]⟩
    · exact ⟨Or.inr (Or.inr ⟨v, rfl, by simpa using hv, by simp [apple_var, h, hv]⟩),
        by simp [apple_var, h, hv]⟩

/-- Witness for C3: the trichotomy instantiated at the key `[0]` and the
empty snapshot. -/
theorem C3_apple_var_outcomes_witness :
    ((apple_getenv [0] [] = none ∧ apple_var [0] [] = .error .NotPresent) ∨
     (∃ v, apple_getenv [0] [] = some v ∧ utf8Valid v = true ∧
        apple_var [0] [] = .ok v) ∨
     (∃ v, apple_getenv [0] [] = some v ∧ utf8Valid v = false ∧
        apple_var [0] [] = .error (.NotUnicode v))) ∧
    (apple_var [0] [] = .error .NotPresent ↔ apple_getenv [0] [] = none) :=
  C3_apple_var_outcomes [0] []

/- ### C4 -/

theorem apple_getenv_nil (k : List Nat) : apple_getenv k [] = none := by
  simp [apple_getenv, apple_getenv_scan]

theorem apple_var_nil (k : List Nat) : apple_var k [] = .error .NotPresent := by
  simp [apple_var, apple_getenv_nil k]

/-- **C4**: when capture never ran (null data pointer), when the
supplemental vector pointer was null, and when the vector was
immediately null-terminated, every query operation returns an empty
result (empty sequence / not-found), never an error. -/
theorem C4_empty_capture :
    empty_queries initialState ∧ empty_queries (init_function none) ∧
    empty_queries (init_function (some [])) := by
  refine ⟨?_, ?_, ?_⟩ <;>
    exact ⟨rfl, rfl, rfl, rfl, rfl, rfl, rfl, fun k =>
      ⟨apple_getenv_nil k, apple_var_nil k, apple_getenv_nil k⟩⟩

/- ### C5 -/

/-- **C5**: every entry of the snapshot published by capture has
non-zero length — zero-length input entries are dropped during the
capture walk, so no query (here raw iteration over the published
snapshot) ever observes an empty byte string. -/
theorem C5_entries_nonempty (applep : Option (List (List Nat))) (a : List Nat)
    (h : a ∈ apple_args_os (args_slice (init_function applep))) : a ≠ [] := by
  cases applep with
  | none => simp [init_function, args_slice, apple_args_os] at h
  | some arr =>
    simp only [init_function, args_slice, apple_args_os, Option.getD_some] at h
    have hp := List.of_mem_filter h
    intro hnil
    subst hnil
    simp at hp

/-- Witness for C5: the entry captured from the vector `["a"]` is
non-empty. -/
theorem C5_entries_nonempty_witness : ([97] : List Nat) ≠ [] :=
  C5_entries_nonempty (some [[97]]) [97] (by decide)

/- ### UTF-8 helper lemmas -/

theorem utf8ValidFuel_eq (fuel : Nat) : ∀ (fuel' : Nat) (s : List Nat),
    s.length ≤ fuel → s.length ≤ fuel' →
    utf8ValidFuel fuel s = utf8ValidFuel fuel' s := by
  induction fuel with
  | zero =>
    intro fuel' s h h'
    have hs : s = [] := List.length_eq_zero.mp (Nat.le_zero.mp h)
    subst hs
    cases fuel' <;> rfl
  | succ n ih =>
    intro fuel' s h h'
    cases s with
    | nil => cases fuel' <;> rfl
    | cons b rest =>
      cases fuel' with
      | zero => simp at h'
      | succ m =>
        have h1 : rest.length ≤ n := by simpa using h
        have h1' : rest.length ≤ m := by simpa using h'
        have hd : (rest.drop (utf8CharWidth b - 1)).length ≤ rest.length := by
          simp [List.length_drop]
        simp only [utf8ValidFuel]
        rw [ih m rest h1 h1',
          ih m (rest.drop (utf8CharWidth b - 1)) (le_trans hd h1) (le_trans hd h1')]

theorem utf8Valid_cons (b : Nat) (rest : List Nat) :
    utf8Valid (b :: rest) =
      if b ≤ 0x7F then utf8Valid rest
      else
        (utf8CharWidth b != 0) &&
        (!(rest.length + 1 < utf8CharWidth b)) &&
        utf8SecondOk b (rest.getD 0 0) &&
        ((utf8CharWidth b ≤ 2) || utf8Cont (rest.getD 1 0)) &&
        ((utf8CharWidth b ≤ 3) || utf8Cont (rest.getD 2 0)) &&
        utf8Valid (rest.drop (utf8CharWidth b - 1)) := by
  show utf8ValidFuel (rest.length + 1) (b :: rest) = _
  simp only [utf8ValidFuel]
  have hd : (rest.drop (utf8CharWidth b - 1)).length ≤ rest.length := by
    simp [List.length_drop]
  rw [show utf8ValidFuel rest.length (rest.drop (utf8CharWidth b - 1)) =
      utf8Valid (rest.drop (utf8CharWidth b - 1)) from
    utf8ValidFuel_eq rest.length _ _ hd le_rfl]
  rfl

theorem utf8CharWidth_ne_one (b : Nat) (hb : ¬ b ≤ 0x7F) :
    utf8CharWidth b ≠ 1 := by
  unfold utf8CharWidth
  rw [if_neg hb]
  split
  · omega
  · split
    · omega
    · split
      · omega
      · omega

theorem utf8Valid_append (y : List Nat) (hy : utf8Valid y = true) :
    ∀ (n : Nat) (x : List Nat), x.length ≤ n → utf8Valid x = true →
    utf8Valid (x ++ y) = true := by
  intro n
  induction n with
  | zero =>
    intro x hl _
    have hs : x = [] := List.length_eq_zero.mp (Nat.le_zero.mp hl)
    subst hs
    simpa using hy
  | succ n ih =>
    intro x hl hx
    cases x with
    | nil => simpa using hy
    | cons b rest =>
      rw [List.cons_append, utf8Valid_cons]
      rw [utf8Valid_cons] at hx
      by_cases hb : b ≤ 0x7F
      · rw [if_pos hb] at hx ⊢
        exact ih rest (by simp at hl; omega) hx
      · have hrn : rest.length ≤ n := by simp at hl; omega
        rw [if_neg hb] at hx ⊢
        simp only [Bool.and_eq_true] at hx
        obtain ⟨⟨⟨⟨⟨c1, c2⟩, c3⟩, c4⟩, c5⟩, c6⟩ := hx
        have hw0 : utf8CharWidth b ≠ 0 := by simpa using c1
        have hw1 : utf8CharWidth b ≠ 1 := utf8CharWidth_ne_one b hb
        have hwle : utf8CharWidth b ≤ rest.length + 1 := by
          simp only [Bool.not_eq_true', decide_eq_false_iff_not, Nat.not_lt] at c2
          omega
        have hw2 : 2 ≤ utf8CharWidth b := by omega
        have hr1 : 1 ≤ rest.length := by omega
        simp only [Bool.and_eq_true]
        refine ⟨⟨⟨⟨⟨c1, ?_⟩, ?_⟩, ?_⟩, ?_⟩, ?_⟩
        · simp only [Bool.not_eq_true', decide_eq_false_iff_not, Nat.not_lt]
          simp [List.length_append]
          omega
        · rwa [List.getD_append _ _ _ _ (by omega)]
        · rcases Nat.lt_or_ge 2 (utf8CharWidth b) with h2 | h2
          · have : 2 ≤ rest.length := by omega
            rw [List.getD_append _ _ _ _ (by omega)]
            exact c4
          · simp only [Bool.or_eq_true, decide_eq_true_eq]
            left
            omega
        · rcases Nat.lt_or_ge 3 (utf8CharWidth b) with h3 | h3
          · have : 3 ≤ rest.length := by omega
            rw [List.getD_append _ _ _ _ (by omega)]
            exact c5
          · simp only [Bool.or_eq_true, decide_eq_true_eq]
            left
            omega
        · rw [List.drop_append_of_le_length (by omega)]
          exact ih (rest.drop (utf8CharWidth b - 1))
            (by simp [List.length_drop]; omega) c6

/- ### C6 -/

/-- **C6**: when every captured entry is valid UTF-8, the raw iteration
and the UTF-8-validated iteration yield exactly the same entries in the
same order (each decoded string having the same bytes) and the same
count. -/
theorem C6_raw_utf8_agree (env : List (List Nat))
    (h : ∀ a ∈ env, utf8Valid a = true) :
    apple_args env = (apple_args_os env).map some ∧
    (apple_args env).length = (apple_args_os env).length := by
  constructor
  · simp only [apple_args, apple_args_os]
    exact List.map_congr_left fun a ha => by simp [str_from_slice, h a ha]
  · simp [apple_args, apple_args_os]

/-- Witness for C6: on the snapshot `["hi"]` (all entries valid UTF-8)
the two iterations agree. -/
theorem C6_raw_utf8_agree_witness :
    apple_args [[104, 105]] = (apple_args_os [[104, 105]]).map some :=
  (C6_raw_utf8_agree [[104, 105]] (by decide)).1

/- ### C7 -/

theorem SliceIter.collectFwd_eq (it : SliceIter α) : it.collectFwd = it.elems := by
  obtain ⟨l⟩ := it
  induction l with
  | nil => simp [SliceIter.collectFwd]
  | cons a rest ih => simp [SliceIter.collectFwd, ih]

theorem SliceIter.collectBwd_eq (it : SliceIter α) :
    it.collectBwd = it.elems.reverse := by
  obtain ⟨l⟩ := it
  induction l using List.reverseRecOn with
  | nil => simp [SliceIter.collectBwd]
  | append_singleton xs x ih =>
    rw [SliceIter.collectBwd]
    split
    next h => simp [List.getLast?_concat] at h
    next a h =>
      rw [List.getLast?_concat] at h
      obtain rfl : x = a := by simpa using h
      simp only [List.dropLast_concat]
      rw [ih]
      simp

theorem SliceIter.next_fst_none (it : SliceIter α) (h : it.next.1 = none) :
    it.elems = [] := by
  obtain ⟨l⟩ := it
  cases l with
  | nil => rfl
  | cons a rest => simp [SliceIter.next] at h

theorem SliceIter.stepFwd_nil (n : Nat) :
    (SliceIter.mk ([] : List α)).stepFwd n = ⟨[]⟩ := by
  induction n with
  | zero => rfl
  | succ n ih => simp [SliceIter.stepFwd, SliceIter.next, ih]

theorem SliceIter.stepBwd_nil (n : Nat) :
    (SliceIter.mk ([] : List α)).stepBwd n = ⟨[]⟩ := by
  induction n with
  | zero => rfl
  | succ n ih => simp [SliceIter.stepBwd, SliceIter.next_back, ih]

/-- **C7**: for the snapshot iterators, reverse traversal yields exactly
the reverse of forward traversal; the reported remaining count always
equals the number of items still to be yielded (in either direction);
an exhausted iterator keeps yielding nothing forever, stepping forward
or backward; and the two snapshot iterators traverse exactly the raw
and UTF-8 iteration sequences. -/
theorem C7_iterator_laws {α : Type} (it : SliceIter α) (st : CaptureState) :
    it.collectBwd = it.collectFwd.reverse ∧
    it.len = it.collectFwd.length ∧
    it.len = it.collectBwd.length ∧
    (it.next.1 = none → ∀ n : Nat,
      (it.stepFwd n).next.1 = none ∧ (it.stepFwd n).next_back.1 = none ∧
      (it.stepBwd n).next.1 = none ∧ (it.stepBwd n).next_back.1 = none) ∧
    (apple_args_os_iter st).collectFwd = apple_args_os (args_slice st) ∧
    (apple_args_iter st).collectFwd = apple_args (args_slice st) := by
  refine ⟨?_, ?_, ?_, ?_, ?_, ?_⟩
  · rw [SliceIter.collectBwd_eq, SliceIter.collectFwd_eq]
  · rw [SliceIter.collectFwd_eq]
    rfl
  · rw [SliceIter.collectBwd_eq, List.length_reverse]
    rfl
  · intro h n
    have he : it.elems = [] := SliceIter.next_fst_none it h
    obtain ⟨l⟩ := it
    simp only at he
    subst he
    rw [SliceIter.stepFwd_nil, SliceIter.stepBwd_nil]
    exact ⟨rfl, rfl, rfl, rfl⟩
  · rw [SliceIter.collectFwd_eq]
    rfl
  · rw [SliceIter.collectFwd_eq]
    rfl

/-- Witness for C7: the exhausted raw iterator stays exhausted after
two further forward steps. -/
theorem C7_iterator_laws_witness :
    ((SliceIter.mk ([] : List (List Nat))).stepFwd 2).next.1 = none :=
  ((C7_iterator_laws ⟨[]⟩ initialState).2.2.2.1 rfl 2).1

/- ### C10 -/

theorem match_split (k a : List Nat) (h61 : eqByte ∉ k)
    (hp : k <+: a) (hg : a[k.length]? = some eqByte) :
    ∃ rest, a = k ++ eqByte :: rest ∧ split_kv a = some (k, rest) ∧
      a.drop (k.length + 1) = rest := by
  obtain ⟨hlt, hgi⟩ := List.getElem?_eq_some.mp hg
  have hd : k ++ a.drop k.length = a := List.prefix_iff_eq_append.mp hp
  obtain ⟨rest, hrest⟩ : ∃ r, a.drop (k.length + 1) = r := ⟨_, rfl⟩
  have ha : a = k ++ eqByte :: rest := by
    conv_lhs => rw [← hd, List.drop_eq_getElem_cons hlt, hgi, hrest]
  refine ⟨rest, ha, ?_, hrest⟩
  rw [ha, split_kv_append k rest h61]

theorem apple_getenv_scan_pairs (k : List Nat) (h61 : eqByte ∉ k) :
    ∀ env : List (List Nat),
    apple_getenv_scan k env =
      ((env.filterMap split_kv).find? fun kv => kv.1 == k).map Prod.snd := by
  intro env
  induction env with
  | nil => rfl
  | cons a env ih =>
    rw [apple_getenv_scan, List.filterMap_cons]
    by_cases hcond : (a.get? k.length == some eqByte && k.isPrefixOf a) = true
    · rw [if_pos hcond]
      simp only [Bool.and_eq_true, beq_iff_eq, List.isPrefixOf_iff_prefix] at hcond
      obtain ⟨hg, hp⟩ := hcond
      have hg' : a[k.length]? = some eqByte := by
        rwa [List.get?_eq_getElem?] at hg
      obtain ⟨rest, ha, hsplit, hdrop⟩ := match_split k a h61 hp hg'
      rw [hsplit, List.find?_cons]
      simp [hdrop]
    · rw [if_neg hcond, ih]
      cases hsa : split_kv a with
      | none => rfl
      | some kv =>
        obtain ⟨k', v'⟩ := kv
        obtain ⟨ha, _⟩ := split_kv_some a k' v' hsa
        have hne : (k' == k) = false := by
          simp only [beq_eq_false_iff_ne, ne_eq]
          intro heq
          apply hcond
          subst heq
          subst ha
          simp only [Bool.and_eq_true, beq_iff_eq, List.isPrefixOf_iff_prefix]
          constructor
          · rw [List.get?_eq_getElem?,
              List.getElem?_append_right (Nat.le_refl _)]
            simp
          · exact List.prefix_append k' (eqByte :: v')
        rw [List.find?_cons]
        simp [hne]

/-- **C10**: for a key containing neither `'='` nor a null byte, raw
point lookup agrees with the key/value pair iteration: it returns
exactly the value of the first pair whose key equals the candidate key
(mapped over `find?`), and it finds something precisely when some pair
of the pair iteration carries that key. -/
theorem C10_getenv_pairs_agree (k : List Nat) (env : List (List Nat))
    (h61 : eqByte ∉ k) (h0 : (0 : Nat) ∉ k) :
    apple_getenv k env =
      ((split_args_iter env).find? fun kv => kv.1 == k).map Prod.snd ∧
    ((apple_getenv k env).isSome ↔ ∃ kv ∈ split_args_iter env, kv.1 = k) := by
  have hc : k.contains 0 = false := by
    simp [List.contains]
    exact h0
  have h1 : apple_getenv k env =
      ((split_args_iter env).find? fun kv => kv.1 == k).map Prod.snd := by
    simp only [apple_getenv, hc, Bool.false_eq_true, if_false, split_args_iter]
    exact apple_getenv_scan_pairs k h61 env
  refine ⟨h1, ?_⟩
  rw [h1]
  simp [List.find?_isSome]

/- ### C8 -/

/-- Counterexample for C8 as stated: the captured entry `[0xFF]` is not
valid UTF-8, yet the pair iteration `apple_vars` yields nothing for the
snapshot `[[0xFF]]` — the invalid entry is silently skipped (it has no
`'='`, so the split rule drops it before any decoding), with no panic;
the claim that the pair iteration "never silently skips the invalid
entry" therefore fails at this input.  (`apple_args` does panic on it,
as the last conjunct shows.) -/
theorem C8_counterexample :
    utf8Valid [255] = false ∧ ([255] : List Nat) ∈ [[255]] ∧
    apple_vars [[255]] = [] ∧ apple_args [[255]] = [none] := by decide

/-- **C8 (amended)**: an invalid-UTF-8 entry is fatal for the
UTF-8-validating iterations wherever decoding is attempted: `apple_args`
panics exactly at that entry's position (no partial or lossy result, no
skipping); and for every invalid entry that splits as a key/value pair,
`apple_vars` yields that pair with a panic in its key or value component
(never a partial result, never skipping the pair).  Entries with no
`'='` are excluded from pair iteration by the split rule regardless of
UTF-8 validity, so no decoding is attempted for them there. -/
theorem C8_utf8_failure_fatal (env : List (List Nat)) :
    ((apple_args env).length = env.length ∧
     ∀ (i : Nat) (a : List Nat), env[i]? = some a → utf8Valid a = false →
       (apple_args env)[i]? = some none) ∧
    (apple_vars env = (apple_vars_os env).map
        (fun kv => (str_from_slice kv.1, str_from_slice kv.2)) ∧
     ∀ (a k v : List Nat), a ∈ env → split_kv a = some (k, v) →
       utf8Valid a = false →
       (str_from_slice k, str_from_slice v) ∈ apple_vars env ∧
       (str_from_slice k = none ∨ str_from_slice v = none)) := by
  refine ⟨⟨by simp [apple_args], ?_⟩, rfl, ?_⟩
  · intro i a hi hv
    simp [apple_args, hi, str_from_slice, hv]
  · intro a k v ha hsplit hv
    constructor
    · exact List.mem_map_of_mem _ (List.mem_filterMap.mpr ⟨a, ha, hsplit⟩)
    · cases hkval : utf8Valid k with
      | false =>
        left
        simp [str_from_slice, hkval]
      | true =>
        cases hvval : utf8Valid v with
        | false =>
          right
          simp [str_from_slice, hvval]
        | true =>
          exfalso
          obtain ⟨ha2, _⟩ := split_kv_some a k v hsplit
          have h61v : utf8Valid (eqByte :: v) = true :=
            utf8Valid_append v hvval 1 [eqByte] (by decide) (by decide)
          have hall : utf8Valid (k ++ eqByte :: v) = true :=
            utf8Valid_append (eqByte :: v) h61v k.length k le_rfl hkval
          rw [← ha2] at hall
          rw [hall] at hv
          cases hv

/-- Witness for the amended C8: the invalid entry `[0xFF, '=', 0xFF]`
splits as a pair and shows up in `apple_vars` with panics in both
components. -/
theorem C8_utf8_failure_fatal_witness :
    (str_from_slice [255], str_from_slice [255]) ∈ apple_vars [[255, 61, 255]] :=
  ((C8_utf8_failure_fatal [[255, 61, 255]]).2.2 [255, 61, 255] [255] [255]
    (by decide) (by decide) (by decide)).1

/-- Witness for C10 at a concrete input: looking up `"f"` in
`["f=1", "g=2"]` agrees with the first matching pair of the pair
iteration. -/
theorem C10_getenv_pairs_agree_witness :
    apple_getenv [102] [[102, 61, 49], [103, 61, 50]] =
      ((split_args_iter [[102, 61, 49], [103, 61, 50]]).find?
        fun kv => kv.1 == [102]).map Prod.snd :=
  (C10_getenv_pairs_agree [102] [[102, 61, 49], [103, 61, 50]]
    (by decide) (by decide)).1

end AppleArgs
